import Mathlib

/-!
# Alert consolidation (`notification/repository/repository.go`)

A shallow embedding of `CombineAlertsByURL` and a verification of its
elimination pass, of the summary it returns and of the delete requests it
sends to the store.

* The `container/list` value `l` is a `List Alert`; an element of the Go list is
  a position of the Lean list.
* The `gorm` connection is not part of the repository. It is a parameter
  (`Connection`): a query that may fail and a delete whose error is ignored.
* `time.Time` is an `Int` (an instant); Go's `int` counters are `Nat` (a count
  of list elements cannot overflow a 64-bit `int`).
-/

namespace Repository

/-! ## Data model -/

/-- Alert is the row type of table `Alert` (`repository.go`, lines 46-55).
The Go field `Type` is spelled `Typ` because `Type` is reserved in Lean. -/
structure Alert where
  ID : String
  Key : String
  URL : String
  VersusKey : String
  Typ : String
  GeneratedAt : Int
  Severity : String
  Description : String
deriving DecidableEq, Repr

/-- Modelled from the spec: `sdk.HealthChangeNotification` is declared in package
`massive-message/notification/sdk`, which is not among the sources; the spec
calls it `Summary{ target, warnings, criticals }`. The field names are the ones
`CombineAlertsByURL` assigns to. -/
structure HealthChangeNotification where
  URL : String
  Warnings : Nat
  Criticals : Nat
deriving DecidableEq, Repr

/-! ## The elimination pass (lines 170-197) -/

/-- The two tests of the inner loop (lines 183 and 188) as one predicate:
`check` is removed while `alert` is the current element. Used to state what
`scan` computes; `scan` itself follows the source. -/
def hits (alert check : Alert) : Bool :=
  decide (check.Key = alert.VersusKey) || decide (check.Key = alert.Key)

/-- Inner loop, lines 180-196, for one current element `alert`: walks the
elements `r` that follow it. The first component is what the loop appends to
`removeFromDB` (the `check` values, in order; `removeFromList` holds the same
elements); the second component is what is left of the tail of `l` after
`l.Remove` has been called on every element of `removeFromList`. -/
def scan (alert : Alert) : List Alert → List Alert × List Alert
  | [] => ([], [])
  | check :: rs =>
    if check.Key = alert.VersusKey then
      (check :: (scan alert rs).1, (scan alert rs).2)
    else if check.Key = alert.Key then
      (check :: (scan alert rs).1, (scan alert rs).2)
    else
      ((scan alert rs).1, check :: (scan alert rs).2)

/-- Outer loop, lines 178-197, started at element `e` with the list from `e` on
as second argument. Returns the list from `e` on as it is when the loop ends and
the records appended to `removeFromDB` from this point on. `e` itself is never
removed, and `e.Next()` is the head of what `scan` left. The first argument
bounds the number of iterations; `eliminationPass` starts it with the length of
the list, which is never exhausted before the list is (`outerLoop_fuel`). -/
def outerLoop : Nat → List Alert → List Alert × List Alert
  | 0, l => (l, [])
  | _ + 1, [] => ([], [])
  | n + 1, alert :: rest =>
    (alert :: (outerLoop n (scan alert rest).2).1,
      (scan alert rest).1 ++ (outerLoop n (scan alert rest).2).2)

/-- Lines 170-197: the list `l` is filled with `alerts` and the outer loop runs
from `l.Front()`. Returns `(l, removeFromDB)` as they are at line 198:
survivors and eliminated records. -/
def eliminationPass (alerts : List Alert) : List Alert × List Alert :=
  outerLoop alerts.length alerts

/-- The survivors: the content of `l` after the pass. -/
def survivors (alerts : List Alert) : List Alert := (eliminationPass alerts).1

/-- The eliminated records: `removeFromDB` after the pass. -/
def eliminated (alerts : List Alert) : List Alert := (eliminationPass alerts).2

/-! ## The store and the whole function (lines 163-217) -/

/-- The two operations `CombineAlertsByURL` performs on `connection`, over a
store state `σ`. `find` is
`Order("\"GeneratedAt\" asc").Where("\"URL\" = ?", url).Find(&alerts)` with its
`.Error` (`Except.error e` when it is not nil). `delete` is
`Unscoped().Delete(&toRemove)`: the new store state and the error of the
request, `none` when it succeeded. -/
structure Connection (σ : Type) where
  find : σ → String → Except String (List Alert)
  delete : σ → Alert → σ × Option String

/-- Lines 199-205: one delete request per element of `removeFromDB`, in order,
the error of each request dropped. Returns the store after the loop and the
requests issued, appended to `issued`. -/
def deleteLoop {σ : Type} (conn : Connection σ) :
    List Alert → σ → List Alert → σ × List Alert
  | [], db, issued => (db, issued)
  | toRemove :: rs, db, issued =>
    deleteLoop conn rs (conn.delete db toRemove).1 (issued ++ [toRemove])

/-- Lines 208-215: the loop over what is left in `l`, counting severities. -/
def countLoop (n : HealthChangeNotification) : List Alert → HealthChangeNotification
  | [] => n
  | alert :: rest =>
    if alert.Severity = "Warning" then
      countLoop { n with Warnings := n.Warnings + 1 } rest
    else if alert.Severity = "Critical" then
      countLoop { n with Criticals := n.Criticals + 1 } rest
    else
      countLoop n rest

/-- What a call of `CombineAlertsByURL` returns and does: the two Go results
(`none` is `nil`), the delete requests sent to the store in order, and the
store after the call. -/
structure Outcome (σ : Type) where
  summary : Option HealthChangeNotification
  err : Option String
  deletes : List Alert
  db : σ

/-- CombineAlertsByURL, lines 163-217. -/
def CombineAlertsByURL {σ : Type} (conn : Connection σ) (db : σ) (url : String) :
    Outcome σ :=
  match conn.find db url with
  | Except.error e => { summary := none, err := some e, deletes := [], db := db }
  | Except.ok alerts =>
    let l := (eliminationPass alerts).1
    let removeFromDB := (eliminationPass alerts).2
    let after := deleteLoop conn removeFromDB db []
    { summary := some (countLoop { URL := url, Warnings := 0, Criticals := 0 } l),
      err := none,
      deletes := after.2,
      db := after.1 }

/-- Modelled from the spec: the ordered query of the store adapter, section 4.2
(`listAlertsOrderedByTime`): the rows of the target, ascending by `GeneratedAt`,
rows of equal time in table order (a stable sort). -/
def queryRows (rows : List Alert) (url : String) : List Alert :=
  List.insertionSort (fun a b => a.GeneratedAt ≤ b.GeneratedAt)
    (rows.filter (fun r => decide (r.URL = url)))

/-- Modelled from the spec: the store behind `connection` (gorm over Postgres)
is outside the sources. This is the store adapter of the spec, section 4.2,
over a table of rows: the ordered query returns the rows of the target,
ascending by `GeneratedAt` with ties in table order, and never fails; a delete
removes the row with the given `ID` if there is one and is not an error when
there is none. -/
def tableStore : Connection (List Alert) where
  find := fun rows url => Except.ok (queryRows rows url)
  delete := fun rows toRemove =>
    (rows.filter (fun r => decide (r.ID ≠ toRemove.ID)), none)

/-- A store whose ordered query fails: the connection is down. -/
def downStore : Connection Unit where
  find := fun _ _ => Except.error "connection refused"
  delete := fun s _ => (s, none)

/-- The table store with every delete request failing: the query is that of
`tableStore`, a delete leaves the table as it is and reports an error. -/
def readOnlyStore : Connection (List Alert) where
  find := fun rows url => Except.ok (queryRows rows url)
  delete := fun rows _ => (rows, some "delete failed")

/-! ## Sample records -/

/-- A record of target `/t` with the given ID, key, counterpart key, severity and
time. -/
def sample (id key versus severity : String) (t : Int) : Alert :=
  { ID := id, Key := key, URL := "/t", VersusKey := versus, Typ := "Alert",
    GeneratedAt := t, Severity := severity, Description := "" }

/-! ## The pass as two filters -/

theorem scan_fst (alert : Alert) (rs : List Alert) :
    (scan alert rs).1 = rs.filter (fun r => hits alert r) := by
  induction rs with
  | nil => rfl
  | cons c rs ih =>
    by_cases h1 : c.Key = alert.VersusKey
    · simp [scan, hits, h1, ih]
    · by_cases h2 : c.Key = alert.Key
      · simp [scan, hits, h1, h2, ih]
      · simp [scan, hits, h1, h2, ih]

theorem scan_snd (alert : Alert) (rs : List Alert) :
    (scan alert rs).2 = rs.filter (fun r => !hits alert r) := by
  induction rs with
  | nil => rfl
  | cons c rs ih =>
    by_cases h1 : c.Key = alert.VersusKey
    · simp [scan, hits, h1, ih]
    · by_cases h2 : c.Key = alert.Key
      · simp [scan, hits, h1, h2, ih]
      · simp [scan, hits, h1, h2, ih]

theorem scan_snd_length (alert : Alert) (rs : List Alert) :
    (scan alert rs).2.length ≤ rs.length := by
  rw [scan_snd]; exact List.length_filter_le _ _

/-- The iteration bound is never what stops the outer loop: any bound of at
least the length of the list gives the same result. -/
theorem outerLoop_fuel : ∀ (n m : Nat) (l : List Alert),
    l.length ≤ n → l.length ≤ m → outerLoop n l = outerLoop m l := by
  intro n
  induction n with
  | zero =>
    intro m l hn _
    have hl : l = [] := List.length_eq_zero.mp (Nat.le_zero.mp hn)
    subst hl
    cases m <;> rfl
  | succ n ih =>
    intro m l hn hm
    cases l with
    | nil => cases m <;> rfl
    | cons a rest =>
      cases m with
      | zero => simp at hm
      | succ m =>
        have h := scan_snd_length a rest
        simp only [List.length_cons] at hn hm
        simp only [outerLoop]
        rw [ih m (scan a rest).2 (by omega) (by omega)]

theorem eliminationPass_nil : eliminationPass [] = ([], []) := rfl

theorem eliminationPass_cons (a : Alert) (rest : List Alert) :
    eliminationPass (a :: rest) =
      (a :: (eliminationPass (rest.filter (fun r => !hits a r))).1,
        rest.filter (fun r => hits a r) ++
          (eliminationPass (rest.filter (fun r => !hits a r))).2) := by
  have h := scan_snd_length a rest
  simp only [eliminationPass, List.length_cons, outerLoop]
  rw [outerLoop_fuel rest.length (scan a rest).2.length (scan a rest).2 h (le_refl _)]
  rw [scan_fst, scan_snd]

theorem survivors_nil : survivors [] = [] := rfl

theorem eliminated_nil : eliminated [] = [] := rfl

theorem survivors_cons (a : Alert) (rest : List Alert) :
    survivors (a :: rest) = a :: survivors (rest.filter (fun r => !hits a r)) := by
  simp only [survivors, eliminationPass_cons]

theorem eliminated_cons (a : Alert) (rest : List Alert) :
    eliminated (a :: rest) =
      rest.filter (fun r => hits a r) ++ eliminated (rest.filter (fun r => !hits a r)) := by
  simp only [eliminated, eliminationPass_cons]

/-- Induction along the outer loop: from the list the loop continues with to
the list it was started on. -/
theorem pass_induction {P : List Alert → Prop} (hnil : P [])
    (hcons : ∀ a rest, P (rest.filter (fun r => !hits a r)) → P (a :: rest)) :
    ∀ l, P l := by
  have key : ∀ n, ∀ l : List Alert, l.length ≤ n → P l := by
    intro n
    induction n with
    | zero =>
      intro l hl
      have : l = [] := List.length_eq_zero.mp (Nat.le_zero.mp hl)
      subst this; exact hnil
    | succ n ih =>
      intro l hl
      cases l with
      | nil => exact hnil
      | cons a rest =>
        apply hcons
        apply ih
        have := List.length_filter_le (fun r => !hits a r) rest
        simp only [List.length_cons] at hl
        omega
  intro l
  exact key l.length l (le_refl _)

theorem survivors_sublist (l : List Alert) : (survivors l).Sublist l := by
  induction l using pass_induction with
  | hnil => simp [survivors_nil]
  | hcons a rest ih =>
    rw [survivors_cons]
    exact (ih.trans (List.filter_sublist _)).cons₂ a

theorem pass_perm (l : List Alert) : (survivors l ++ eliminated l).Perm l := by
  induction l using pass_induction with
  | hnil => simp [survivors_nil, eliminated_nil]
  | hcons a rest ih =>
    rw [survivors_cons, eliminated_cons]
    simp only [List.cons_append]
    refine List.Perm.cons a ?_
    have h1 : (survivors (rest.filter (fun r => !hits a r)) ++
        (rest.filter (fun r => hits a r) ++ eliminated (rest.filter (fun r => !hits a r)))).Perm
        (rest.filter (fun r => hits a r) ++ (survivors (rest.filter (fun r => !hits a r)) ++
          eliminated (rest.filter (fun r => !hits a r)))) := by
      rw [← List.append_assoc, ← List.append_assoc]
      exact List.Perm.append_right _ List.perm_append_comm
    refine h1.trans ?_
    refine (List.Perm.append_left _ ih).trans ?_
    exact List.filter_append_perm _ _

/-! ## Survivors do not hit one another -/

theorem mem_survivors_mem {l : List Alert} {a : Alert} (h : a ∈ survivors l) : a ∈ l :=
  (survivors_sublist l).subset h

theorem survivors_pairwise (l : List Alert) :
    (survivors l).Pairwise (fun a b => hits a b = false) := by
  induction l using pass_induction with
  | hnil => simp [survivors_nil]
  | hcons a rest ih =>
    rw [survivors_cons]
    refine List.Pairwise.cons ?_ ih
    intro b hb
    have hb2 := mem_survivors_mem hb
    simpa using (List.mem_filter.mp hb2).2

theorem eliminationPass_of_pairwise :
    ∀ l : List Alert, l.Pairwise (fun a b => hits a b = false) → eliminationPass l = (l, [])
  | [], _ => rfl
  | a :: rest, h => by
    have h1 : ∀ b ∈ rest, hits a b = false := (List.pairwise_cons.mp h).1
    have h2 := (List.pairwise_cons.mp h).2
    have hkeep : rest.filter (fun r => !hits a r) = rest :=
      List.filter_eq_self.mpr (fun b hb => by simp [h1 b hb])
    have hdrop : rest.filter (fun r => hits a r) = [] :=
      List.filter_eq_nil_iff.mpr (fun b hb => by simp [h1 b hb])
    rw [eliminationPass_cons, hkeep, hdrop, eliminationPass_of_pairwise rest h2]
    rfl

/-! ## Who eliminates whom -/

/-- Whether a record is hit depends on its key alone. -/
theorem hits_congr (x : Alert) {a b : Alert} (h : b.Key = a.Key) : hits x b = hits x a := by
  simp [hits, h]

/-- A record placed after a record `a` that hits it is eliminated, and the
survivors are found among the other positions, as soon as `a` survives or the
two keys are equal. -/
theorem hit_later_eliminated : ∀ (n : Nat) (pre mid post : List Alert) (a b : Alert),
    pre.length ≤ n → hits a b = true →
    (a ∈ survivors (pre ++ a :: mid ++ b :: post) ∨ b.Key = a.Key) →
    b ∈ eliminated (pre ++ a :: mid ++ b :: post) ∧
      (survivors (pre ++ a :: mid ++ b :: post)).Sublist (pre ++ a :: mid ++ post) := by
  intro n
  induction n with
  | zero =>
    intro pre mid post a b hn hab _
    have hpre : pre = [] := List.length_eq_zero.mp (Nat.le_zero.mp hn)
    subst hpre
    simp only [List.nil_append, List.cons_append]
    rw [survivors_cons, eliminated_cons]
    constructor
    · apply List.mem_append_left
      simp [List.filter_append, hab]
    · refine List.Sublist.cons₂ a ((survivors_sublist _).trans ?_)
      simp only [List.filter_append, List.filter_cons, hab, Bool.not_true]
      exact List.Sublist.append (List.filter_sublist _) (List.filter_sublist _)
  | succ n ih =>
    intro pre mid post a b hn hab hor
    cases pre with
    | nil =>
      simp only [List.nil_append, List.cons_append]
      rw [survivors_cons, eliminated_cons]
      constructor
      · apply List.mem_append_left
        simp [List.filter_append, hab]
      · refine List.Sublist.cons₂ a ((survivors_sublist _).trans ?_)
        simp only [List.filter_append, List.filter_cons, hab, Bool.not_true]
        exact List.Sublist.append (List.filter_sublist _) (List.filter_sublist _)
    | cons x pre1 =>
      simp only [List.cons_append, List.append_assoc] at hor ⊢
      rw [survivors_cons, eliminated_cons]
      rw [survivors_cons] at hor
      by_cases hxb : hits x b = true
      · constructor
        · apply List.mem_append_left
          simp [List.filter_append, hxb]
        · refine List.Sublist.cons₂ x ((survivors_sublist _).trans ?_)
          simp only [List.filter_append, List.filter_cons, hxb, Bool.not_true]
          refine List.Sublist.append (List.filter_sublist _) ?_
          by_cases hxa : hits x a = true
          · simp only [hxa, Bool.not_true]
            exact List.Sublist.cons _
              (List.Sublist.append (List.filter_sublist _) (List.filter_sublist _))
          · simp only [hxa, Bool.not_false]
            exact List.Sublist.cons₂ _
              (List.Sublist.append (List.filter_sublist _) (List.filter_sublist _))
      · have hxb2 : hits x b = false := by simpa using hxb
        have hxa : hits x a = false := by
          rcases hor with hmem | hkey
          · rcases List.mem_cons.mp hmem with hax | hin
            · subst hax; rw [hab] at hxb2; exact absurd hxb2 (by simp)
            · have := (List.mem_filter.mp (mem_survivors_mem hin)).2
              simpa using this
          · rw [← hits_congr x hkey]; exact hxb2
        have hkept : (pre1 ++ a :: (mid ++ b :: post)).filter (fun r => !hits x r) =
            pre1.filter (fun r => !hits x r) ++ a :: mid.filter (fun r => !hits x r) ++
              b :: post.filter (fun r => !hits x r) := by
          simp [List.filter_append, List.filter_cons, hxa, hxb2]
        have hor2 : a ∈ survivors (pre1.filter (fun r => !hits x r) ++
            a :: mid.filter (fun r => !hits x r) ++ b :: post.filter (fun r => !hits x r)) ∨
            b.Key = a.Key := by
          rcases hor with hmem | hkey
          · left
            rcases List.mem_cons.mp hmem with hax | hin
            · subst hax; rw [hab] at hxb2; exact absurd hxb2 (by simp)
            · rw [← hkept]; exact hin
          · exact Or.inr hkey
        have hlen : (pre1.filter (fun r => !hits x r)).length ≤ n := by
          have := List.length_filter_le (fun r => !hits x r) pre1
          simp only [List.length_cons] at hn
          omega
        have hrec := ih _ _ _ a b hlen hab hor2
        rw [hkept]
        constructor
        · exact List.mem_append_right _ hrec.1
        · refine List.Sublist.cons₂ x (hrec.2.trans ?_)
          simp only [List.append_assoc, List.cons_append]
          exact List.Sublist.append (List.filter_sublist _)
            (List.Sublist.cons₂ _
              (List.Sublist.append (List.filter_sublist _) (List.filter_sublist _)))

/-! ## Positions -/

/-- Two records at positions `i < j` split the list around them. -/
theorem split_at_one : ∀ (l : List Alert) (j : Nat) (b : Alert), l[j]? = some b →
    ∃ front post, l = front ++ b :: post ∧ front.length = j ∧ l.eraseIdx j = front ++ post
  | [], j, b, h => by simp at h
  | x :: l, 0, b, h => by
    refine ⟨[], l, ?_, rfl, rfl⟩
    simp at h
    simp [h]
  | x :: l, j + 1, b, h => by
    have h2 : l[j]? = some b := by simpa using h
    obtain ⟨front, post, h3, h4, h5⟩ := split_at_one l j b h2
    refine ⟨x :: front, post, ?_, ?_, ?_⟩
    · simp [h3]
    · simp [h4]
    · simp [h5]

theorem split_at_two {l : List Alert} {i j : Nat} {a b : Alert} (hij : i < j)
    (ha : l[i]? = some a) (hb : l[j]? = some b) :
    ∃ pre mid post, l = pre ++ a :: mid ++ b :: post ∧
      l.eraseIdx j = pre ++ a :: mid ++ post := by
  obtain ⟨front, post, h1, h2, h3⟩ := split_at_one l j b hb
  have ha2 : front[i]? = some a := by
    rw [h1, List.getElem?_append_left (by omega)] at ha
    exact ha
  obtain ⟨pre, mid, h4, _, _⟩ := split_at_one front i a ha2
  exact ⟨pre, mid, post, by rw [h1, h4], by rw [h3, h4]⟩

theorem index_of_split (pre mid post : List Alert) (a b : Alert) :
    (pre ++ a :: mid ++ b :: post)[pre.length]? = some a ∧
      (pre ++ a :: mid ++ b :: post)[pre.length + 1 + mid.length]? = some b := by
  constructor
  · rw [List.append_assoc, List.getElem?_append_right (le_refl _)]
    simp
  · have h : (pre ++ a :: mid).length = pre.length + 1 + mid.length := by
      simp; omega
    rw [← h, List.getElem?_append_right (le_refl _)]
    simp

theorem split_of_pair_sublist {l : List Alert} {a b : Alert} (h : [a, b].Sublist l) :
    ∃ pre mid post, l = pre ++ a :: mid ++ b :: post := by
  obtain ⟨r1, r2, h1, h2, h3⟩ := List.cons_sublist_iff.mp h
  obtain ⟨s, t, h4⟩ := List.append_of_mem h2
  obtain ⟨u, v, h5⟩ := List.append_of_mem (List.singleton_sublist.mp h3)
  refine ⟨s, t ++ u, v, ?_⟩
  rw [h1, h4, h5]
  simp [List.append_assoc]

/-- An eliminated record was hit by a survivor placed before it. -/
theorem eliminated_has_killer (l : List Alert) :
    ∀ b, b ∈ eliminated l → ∃ a, [a, b].Sublist l ∧ a ∈ survivors l ∧ hits a b = true := by
  induction l using pass_induction with
  | hnil => intro b hb; simp [eliminated_nil] at hb
  | hcons x rest ih =>
    intro b hb
    rw [eliminated_cons] at hb
    rcases List.mem_append.mp hb with h1 | h2
    · have hb2 := List.mem_filter.mp h1
      refine ⟨x, ?_, ?_, hb2.2⟩
      · exact List.Sublist.cons₂ x (List.singleton_sublist.mpr hb2.1)
      · rw [survivors_cons]; exact List.mem_cons_self _ _
    · obtain ⟨a, h3, h4, h5⟩ := ih b h2
      refine ⟨a, ?_, ?_, h5⟩
      · exact List.Sublist.cons x (h3.trans (List.filter_sublist _))
      · rw [survivors_cons]; exact List.mem_cons_of_mem _ h4

/-! ## Removing eliminated records beforehand -/

theorem survivors_of_between : ∀ (l : List Alert), l.Nodup →
    ∀ l2 : List Alert, l2.Sublist l → (survivors l).Sublist l2 →
      survivors l2 = survivors l := by
  intro l
  induction l using pass_induction with
  | hnil =>
    intro _ l2 h1 _
    have : l2 = [] := List.sublist_nil.mp h1
    subst this; rfl
  | hcons a rest ih =>
    intro hnd l2 h1 h2
    rw [survivors_cons] at h2 ⊢
    have hnot : a ∉ rest := (List.nodup_cons.mp hnd).1
    have hndr : rest.Nodup := (List.nodup_cons.mp hnd).2
    have ha2 : a ∈ l2 := h2.subset (List.mem_cons_self _ _)
    rcases List.sublist_cons_iff.mp h1 with h3 | ⟨r, h4, h5⟩
    · exact absurd (h3.subset ha2) hnot
    · subst h4
      rw [survivors_cons]
      have h6 : (survivors (rest.filter (fun r => !hits a r))).Sublist r :=
        List.cons_sublist_cons.mp h2
      have h7 : (survivors (rest.filter (fun r => !hits a r))).filter (fun r => !hits a r) =
          survivors (rest.filter (fun r => !hits a r)) :=
        List.filter_eq_self.mpr (fun c hc => (List.mem_filter.mp (mem_survivors_mem hc)).2)
      have h8 : (survivors (rest.filter (fun r => !hits a r))).Sublist
          (r.filter (fun r => !hits a r)) := by
        rw [← h7]; exact h6.filter _
      rw [ih (hndr.filter _) (r.filter (fun r => !hits a r)) (h5.filter _) h8]

/-! ## The delete loop and the counting loop -/

theorem deleteLoop_snd {σ : Type} (conn : Connection σ) :
    ∀ (rs : List Alert) (db : σ) (issued : List Alert),
      (deleteLoop conn rs db issued).2 = issued ++ rs
  | [], db, issued => by simp [deleteLoop]
  | r :: rs, db, issued => by
    simp [deleteLoop, deleteLoop_snd conn rs]

theorem deleteLoop_fst {σ : Type} (conn : Connection σ) :
    ∀ (rs : List Alert) (db : σ) (issued : List Alert),
      (deleteLoop conn rs db issued).1 = rs.foldl (fun s r => (conn.delete s r).1) db
  | [], db, issued => by simp [deleteLoop]
  | r :: rs, db, issued => by
    simp [deleteLoop, deleteLoop_fst conn rs]

theorem countLoop_eq : ∀ (l : List Alert) (n : HealthChangeNotification),
    countLoop n l =
      { URL := n.URL,
        Warnings := n.Warnings + l.countP (fun a => decide (a.Severity = "Warning")),
        Criticals := n.Criticals + l.countP (fun a => decide (a.Severity = "Critical")) }
  | [], n => by simp [countLoop]
  | a :: l, n => by
    by_cases h1 : a.Severity = "Warning"
    · have h2 : ¬ a.Severity = "Critical" := by rw [h1]; decide
      simp [countLoop, countLoop_eq l, h1, List.countP_cons]
      omega
    · by_cases h2 : a.Severity = "Critical"
      · simp [countLoop, countLoop_eq l, h1, h2, List.countP_cons]
        omega
      · simp [countLoop, countLoop_eq l, h1, h2, List.countP_cons]

theorem combine_ok {σ : Type} (conn : Connection σ) (db : σ) (url : String)
    (alerts : List Alert) (h : conn.find db url = Except.ok alerts) :
    CombineAlertsByURL conn db url =
      { summary := some (countLoop { URL := url, Warnings := 0, Criticals := 0 }
          (survivors alerts)),
        err := none,
        deletes := eliminated alerts,
        db := (eliminated alerts).foldl (fun s r => (conn.delete s r).1) db } := by
  simp [CombineAlertsByURL, h, deleteLoop_snd, deleteLoop_fst, survivors, eliminated]

theorem combine_error {σ : Type} (conn : Connection σ) (db : σ) (url : String)
    (e : String) (h : conn.find db url = Except.error e) :
    CombineAlertsByURL conn db url =
      { summary := none, err := some e, deletes := [], db := db } := by
  simp [CombineAlertsByURL, h]

/-! ## The table store -/

theorem tableStore_deletes (es : List Alert) : ∀ rows : List Alert,
    es.foldl (fun s r => (tableStore.delete s r).1) rows =
      rows.filter (fun r => decide (r.ID ∉ es.map Alert.ID)) := by
  induction es with
  | nil => intro rows; simp
  | cons e es ih =>
    intro rows
    rw [List.foldl_cons, ih]
    simp only [tableStore, List.filter_filter]
    apply List.filter_congr
    intro r _
    simp only [List.map_cons, List.mem_cons, not_or, decide_not, Bool.decide_and]
    cases decide (r.ID = e.ID) <;> simp

/-! ## Insertion sort is stable under removal of rows -/

theorem filter_orderedInsert_neg {α : Type} (r : α → α → Prop) [DecidableRel r]
    (p : α → Bool) (a : α) (ha : p a = false) :
    ∀ s : List α, (s.orderedInsert r a).filter p = s.filter p
  | [] => by simp [ha]
  | b :: s => by
    by_cases hab : r a b
    · simp [List.orderedInsert, hab, List.filter_cons, ha]
    · simp [List.orderedInsert, hab, List.filter_cons, filter_orderedInsert_neg r p a ha s]

theorem orderedInsert_of_forall {α : Type} (r : α → α → Prop) [DecidableRel r] (a : α) :
    ∀ s : List α, (∀ c ∈ s, r a c) → s.orderedInsert r a = a :: s
  | [], _ => rfl
  | b :: s, h => by simp [List.orderedInsert, h b (List.mem_cons_self _ _)]

theorem filter_orderedInsert_pos {α : Type} (r : α → α → Prop) [DecidableRel r]
    [IsTrans α r] (p : α → Bool) (a : α) (ha : p a = true) :
    ∀ s : List α, s.Sorted r → (s.orderedInsert r a).filter p = (s.filter p).orderedInsert r a
  | [], _ => by simp [ha]
  | b :: s, hs => by
    have hs2 : s.Sorted r := List.Sorted.of_cons hs
    have hb : ∀ c ∈ s, r b c := List.rel_of_sorted_cons hs
    by_cases hab : r a b
    · by_cases hpb : p b = true
      · simp [List.orderedInsert, hab, List.filter_cons, ha, hpb]
      · have hall : ∀ c ∈ s.filter p, r a c := fun c hc =>
          IsTrans.trans a b c hab (hb c (List.mem_filter.mp hc).1)
        simp [List.orderedInsert, hab, List.filter_cons, ha, hpb,
          orderedInsert_of_forall r a _ hall]
    · by_cases hpb : p b = true
      · simp [List.orderedInsert, hab, List.filter_cons, hpb,
          filter_orderedInsert_pos r p a ha s hs2]
      · simp [List.orderedInsert, hab, List.filter_cons, hpb,
          filter_orderedInsert_pos r p a ha s hs2]

theorem filter_insertionSort {α : Type} (r : α → α → Prop) [DecidableRel r]
    [IsTrans α r] [IsTotal α r] (p : α → Bool) :
    ∀ l : List α, (l.insertionSort r).filter p = (l.filter p).insertionSort r
  | [] => rfl
  | a :: l => by
    by_cases ha : p a = true
    · have h1 : (a :: l).filter p = a :: l.filter p := by simp [List.filter_cons, ha]
      rw [h1, List.insertionSort, List.insertionSort,
        filter_orderedInsert_pos r p a ha _ (List.sorted_insertionSort r l),
        filter_insertionSort r p l]
    · have ha2 : p a = false := by simpa using ha
      have h1 : (a :: l).filter p = l.filter p := by simp [List.filter_cons, ha2]
      rw [h1, List.insertionSort, filter_orderedInsert_neg r p a ha2,
        filter_insertionSort r p l]

/-! ## After the deletes -/

/-- With distinct IDs, dropping the rows whose ID is the ID of an eliminated
record leaves the survivors, in order. -/
theorem filter_eliminated_ids (l : List Alert) (hid : (l.map Alert.ID).Nodup) :
    l.filter (fun r => decide (r.ID ∉ (eliminated l).map Alert.ID)) = survivors l := by
  have hperm := pass_perm l
  have hnd : ((survivors l).map Alert.ID ++ (eliminated l).map Alert.ID).Nodup := by
    rw [← List.map_append]
    exact ((hperm.map Alert.ID).nodup_iff).mpr hid
  have hdisj := (List.nodup_append.mp hnd).2.2
  have hS : (survivors l).filter (fun r => decide (r.ID ∉ (eliminated l).map Alert.ID)) =
      survivors l := by
    apply List.filter_eq_self.mpr
    intro s hs
    have : s.ID ∉ (eliminated l).map Alert.ID :=
      fun hin => hdisj (List.mem_map_of_mem Alert.ID hs) hin
    simpa using this
  have hE : (eliminated l).filter (fun r => decide (r.ID ∉ (eliminated l).map Alert.ID)) =
      [] := by
    apply List.filter_eq_nil_iff.mpr
    intro e he
    have : e.ID ∈ (eliminated l).map Alert.ID := List.mem_map_of_mem Alert.ID he
    simpa using this
  have hlen : (l.filter (fun r => decide (r.ID ∉ (eliminated l).map Alert.ID))).length =
      (survivors l).length := by
    have h := (hperm.filter (fun r => decide (r.ID ∉ (eliminated l).map Alert.ID))).length_eq
    rw [List.filter_append, hS, hE, List.append_nil] at h
    exact h.symm
  have hsub : (survivors l).Sublist
      (l.filter (fun r => decide (r.ID ∉ (eliminated l).map Alert.ID))) := by
    have h := (survivors_sublist l).filter
      (fun r => decide (r.ID ∉ (eliminated l).map Alert.ID))
    rw [hS] at h
    exact h
  exact (hsub.eq_of_length hlen.symm).symm

theorem queryRows_perm (rows : List Alert) (url : String) :
    (queryRows rows url).Perm (rows.filter (fun r => decide (r.URL = url))) :=
  List.perm_insertionSort _ _

theorem queryRows_filter (rows : List Alert) (url : String) (p : Alert → Bool) :
    queryRows (rows.filter p) url = (queryRows rows url).filter p := by
  haveI : IsTrans Alert (fun a b => a.GeneratedAt ≤ b.GeneratedAt) :=
    ⟨fun _ _ _ h1 h2 => le_trans h1 h2⟩
  haveI : IsTotal Alert (fun a b => a.GeneratedAt ≤ b.GeneratedAt) :=
    ⟨fun a b => le_total a.GeneratedAt b.GeneratedAt⟩
  unfold queryRows
  rw [filter_insertionSort, List.filter_filter, List.filter_filter]
  congr 1
  apply List.filter_congr
  intro r _
  exact Bool.and_comm _ _

/-- On the table store with distinct row IDs: the rows left are the rows whose
ID is not that of an eliminated record, the next ordered query for the target
returns the survivors, and the rows of other targets are untouched. -/
theorem tableStore_after (rows : List Alert) (url : String)
    (hid : (rows.map Alert.ID).Nodup) :
    tableStore.find (CombineAlertsByURL tableStore rows url).db url =
        Except.ok (survivors (queryRows rows url)) ∧
      (CombineAlertsByURL tableStore rows url).db.filter (fun r => decide (r.URL ≠ url)) =
        rows.filter (fun r => decide (r.URL ≠ url)) := by
  have hfind : tableStore.find rows url = Except.ok (queryRows rows url) := rfl
  have hq := queryRows_perm rows url
  have hqid : ((queryRows rows url).map Alert.ID).Nodup := by
    refine ((hq.map Alert.ID).nodup_iff).mpr ?_
    exact List.Nodup.sublist ((List.filter_sublist rows).map Alert.ID) hid
  rw [combine_ok tableStore rows url _ hfind]
  simp only [tableStore_deletes]
  constructor
  · show Except.ok (queryRows _ url) = _
    rw [queryRows_filter, filter_eliminated_ids _ hqid]
  · rw [List.filter_filter]
    apply List.filter_congr
    intro r hr
    by_cases hu : r.URL = url
    · simp [hu]
    · have hnot : r.ID ∉ (eliminated (queryRows rows url)).map Alert.ID := by
        intro hin
        obtain ⟨e, he, heq⟩ := List.mem_map.mp hin
        have he2 : e ∈ queryRows rows url :=
          (pass_perm _).subset (List.mem_append_right _ he)
        have he3 := List.mem_filter.mp (hq.subset he2)
        have : e = r := List.inj_on_of_nodup_map hid he3.1 hr heq
        subst this
        exact hu (by simpa using he3.2)
      simp [hu, hnot]

/-! ## Distinct records -/

theorem nodup_parts {l : List Alert} (h : l.Nodup) :
    (survivors l).Nodup ∧ (eliminated l).Nodup ∧
      ∀ a, a ∈ survivors l → a ∉ eliminated l := by
  have h1 : (survivors l ++ eliminated l).Nodup := ((pass_perm l).nodup_iff).mpr h
  have h2 := List.nodup_append.mp h1
  exact ⟨h2.1, h2.2.1, fun a ha hb => h2.2.2 ha hb⟩

theorem pair_index_of_sublist {l : List Alert} {a b : Alert} (h : [a, b].Sublist l) :
    ∃ i j : Nat, i < j ∧ l[i]? = some a ∧ l[j]? = some b := by
  obtain ⟨pre, mid, post, h1⟩ := split_of_pair_sublist h
  have h2 := index_of_split pre mid post a b
  rw [← h1] at h2
  exact ⟨pre.length, pre.length + 1 + mid.length, by omega, h2.1, h2.2⟩

theorem hits_iff (a b : Alert) : hits a b = true ↔ (b.Key = a.Key ∨ b.Key = a.VersusKey) := by
  simp [hits, or_comm]

/-- The common part of same-key and counterpart elimination, by positions. -/
theorem later_hit_by_index {l : List Alert} {i j : Nat} {a b : Alert} (hij : i < j)
    (ha : l[i]? = some a) (hb : l[j]? = some b) (hab : hits a b = true)
    (hor : a ∈ survivors l ∨ b.Key = a.Key) :
    b ∈ eliminated l ∧ (survivors l).Sublist (l.eraseIdx j) := by
  obtain ⟨pre, mid, post, h1, h2⟩ := split_at_two hij ha hb
  rw [h2]
  rw [h1] at hor ⊢
  exact hit_later_eliminated pre.length pre mid post a b (le_refl _) hab hor

/-! ## Removing eliminated records, by position -/

/-- A sequence whose records are flagged `true` (kept) or `false` (dropped),
where every dropped record is hit by a survivor placed before it: the
survivors of the kept records are the survivors of the whole sequence. -/
theorem survivors_of_flagged : ∀ (n : Nat) (T : List (Alert × Bool)), T.length ≤ n →
    (∀ pre b post, T = pre ++ (b, false) :: post →
      ∃ a, a ∈ pre.map Prod.fst ∧ a ∈ survivors (T.map Prod.fst) ∧ hits a b = true) →
    survivors ((T.filter (fun p => p.2)).map Prod.fst) = survivors (T.map Prod.fst) := by
  intro n
  induction n with
  | zero =>
    intro T hn _
    have : T = [] := List.length_eq_zero.mp (Nat.le_zero.mp hn)
    subst this; rfl
  | succ n ih =>
    intro T hn hyp
    cases T with
    | nil => rfl
    | cons xk T1 =>
      obtain ⟨x, k⟩ := xk
      have hk : k = true := by
        cases k with
        | true => rfl
        | false =>
          obtain ⟨a, ha, _, _⟩ := hyp [] x T1 rfl
          simp at ha
      subst hk
      have hL : List.map Prod.fst ((x, true) :: T1) = x :: T1.map Prod.fst := rfl
      have hK : (List.filter (fun p => p.2) ((x, true) :: T1)).map Prod.fst =
          x :: (T1.filter (fun p => p.2)).map Prod.fst := by
        simp [List.filter_cons]
      rw [hL, hK, survivors_cons, survivors_cons]
      have e1 : (T1.map Prod.fst).filter (fun r => !hits x r) =
          (T1.filter (fun p => !hits x p.1)).map Prod.fst := by
        rw [List.filter_map]; rfl
      have e2 : ((T1.filter (fun p => p.2)).map Prod.fst).filter (fun r => !hits x r) =
          ((T1.filter (fun p => !hits x p.1)).filter (fun p => p.2)).map Prod.fst := by
        rw [List.filter_map, List.filter_filter, List.filter_filter]
        congr 1
        apply List.filter_congr
        intro p _
        exact Bool.and_comm _ _
      rw [e1, e2]
      congr 1
      apply ih
      · have := List.length_filter_le (fun p : Alert × Bool => !hits x p.1) T1
        simp only [List.length_cons] at hn
        omega
      · intro pre2 b post2 hsplit
        obtain ⟨pre1, rest1, h1, h2, h3⟩ := List.filter_eq_append_iff.mp hsplit
        obtain ⟨l1, l2, h4, h5, h6, _⟩ := List.filter_eq_cons_iff.mp h3
        have hxb : hits x b = false := by simpa using h6
        have hT : (x, true) :: T1 = ((x, true) :: (pre1 ++ l1)) ++ (b, false) :: l2 := by
          rw [h1, h4]; simp
        obtain ⟨a, ha1, ha2, ha3⟩ := hyp _ b l2 hT
        rw [hL, survivors_cons, e1] at ha2
        have hax : a ≠ x := by
          intro h; subst h; rw [ha3] at hxb; exact absurd hxb (by simp)
        have ha4 : a ∈ survivors ((T1.filter (fun p => !hits x p.1)).map Prod.fst) := by
          rcases List.mem_cons.mp ha2 with h | h
          · exact absurd h hax
          · exact h
        refine ⟨a, ?_, ha4, ha3⟩
        have hkeep : hits x a = false := by
          have h := mem_survivors_mem ha4
          rw [← e1] at h
          simpa using (List.mem_filter.mp h).2
        have ha5 : a ∈ (pre1 ++ l1).map Prod.fst := by
          have h : a ∈ x :: (pre1 ++ l1).map Prod.fst := ha1
          rcases List.mem_cons.mp h with h | h
          · exact absurd h hax
          · exact h
        obtain ⟨p, hp, hpa⟩ := List.mem_map.mp ha5
        rcases List.mem_append.mp hp with hp1 | hp2
        · rw [← h2]
          apply List.mem_map.mpr
          refine ⟨p, List.mem_filter.mpr ⟨hp1, ?_⟩, hpa⟩
          simp [hpa, hkeep]
        · have := h5 p hp2
          simp [hpa, hkeep] at this

/-! ## The claims -/

/-- C1, partition completeness: after the pass, survivors followed by
eliminated records are a permutation of the input, so every occurrence of a
record in the input is in exactly one of the two outputs; when the input records
are pairwise distinct no record is eliminated twice and no record is both a
survivor and eliminated. -/
theorem partition_complete (alerts : List Alert) :
    (survivors alerts ++ eliminated alerts).Perm alerts ∧
      (∀ a, (survivors alerts).count a + (eliminated alerts).count a = alerts.count a) ∧
      (survivors alerts).length + (eliminated alerts).length = alerts.length ∧
      (alerts.Nodup →
        (eliminated alerts).Nodup ∧ (survivors alerts).Nodup ∧
          ∀ a ∈ alerts, (a ∈ eliminated alerts ↔ a ∉ survivors alerts)) := by
  have hperm := pass_perm alerts
  refine ⟨hperm, ?_, ?_, ?_⟩
  · intro a
    rw [← List.count_append]
    exact hperm.count_eq a
  · rw [← List.length_append]
    exact hperm.length_eq
  · intro hnd
    have h := nodup_parts hnd
    refine ⟨h.2.1, h.1, ?_⟩
    intro a ha
    constructor
    · intro he hs
      exact h.2.2 a hs he
    · intro hs
      rcases List.mem_append.mp (hperm.symm.subset ha) with h1 | h1
      · exact absurd h1 hs
      · exact h1

/-- Witness of C1 on three distinct records, the second a duplicate key of the
first. -/
theorem partition_complete_witness :
    [sample "1" "k1" "" "Warning" 1, sample "2" "k1" "" "Critical" 2,
        sample "3" "k2" "" "Critical" 3].Nodup ∧
      (eliminated [sample "1" "k1" "" "Warning" 1, sample "2" "k1" "" "Critical" 2,
        sample "3" "k2" "" "Critical" 3]).Nodup :=
  ⟨by decide,
    ((partition_complete [sample "1" "k1" "" "Warning" 1, sample "2" "k1" "" "Critical" 2,
      sample "3" "k2" "" "Critical" 3]).2.2.2 (by decide)).1⟩

/-- C2, same-key elimination: of two records at positions `i < j` with equal
`Key`, the later one is eliminated, whatever else is in the sequence; the
survivors are found among the positions other than `j`. -/
theorem same_key_eliminated (alerts : List Alert) (i j : Nat) (a b : Alert)
    (hij : i < j) (ha : alerts[i]? = some a) (hb : alerts[j]? = some b)
    (hkey : b.Key = a.Key) :
    b ∈ eliminated alerts ∧ (survivors alerts).Sublist (alerts.eraseIdx j) ∧
      (alerts.Nodup → b ∉ survivors alerts) := by
  have h := later_hit_by_index hij ha hb ((hits_iff a b).mpr (Or.inl hkey)) (Or.inr hkey)
  exact ⟨h.1, h.2, fun hnd hs => (nodup_parts hnd).2.2 b hs h.1⟩

/-- Witness of C2: the earlier record of the pair is itself eliminated by a still
earlier one. -/
theorem same_key_eliminated_witness :
    sample "3" "k1" "" "Warning" 3 ∈
      eliminated [sample "1" "k1" "" "Critical" 1, sample "2" "k1" "k9" "Warning" 2,
        sample "3" "k1" "" "Warning" 3] :=
  (same_key_eliminated
    [sample "1" "k1" "" "Critical" 1, sample "2" "k1" "k9" "Warning" 2,
      sample "3" "k1" "" "Warning" 3]
    1 2 (sample "2" "k1" "k9" "Warning" 2) (sample "3" "k1" "" "Warning" 3)
    (by decide) rfl rfl rfl).1

/-- C3 as stated fails: the record at position 2 has the `VersusKey` of the
record at position 1 as its `Key`, but the record at position 1 is removed
while position 0 is the current element and is never the current element
itself; the record at position 2 survives. -/
theorem counterpart_not_eliminated :
    (sample "3" "k2" "" "Warning" 3).Key = (sample "2" "k1" "k2" "Warning" 2).VersusKey ∧
      eliminationPass [sample "1" "k1" "" "Warning" 1, sample "2" "k1" "k2" "Warning" 2,
          sample "3" "k2" "" "Warning" 3] =
        ([sample "1" "k1" "" "Warning" 1, sample "3" "k2" "" "Warning" 3],
          [sample "2" "k1" "k2" "Warning" 2]) ∧
      sample "3" "k2" "" "Warning" 3 ∉
        eliminated [sample "1" "k1" "" "Warning" 1, sample "2" "k1" "k2" "Warning" 2,
          sample "3" "k2" "" "Warning" 3] := by
  decide

/-- C3, amended: of two records at positions `i < j` where the earlier one is a
survivor and the later one has the `VersusKey` of the earlier one as its `Key`, the
later one is eliminated; the survivors are found among the positions other
than `j`. -/
theorem counterpart_eliminated (alerts : List Alert) (i j : Nat) (a b : Alert)
    (hij : i < j) (ha : alerts[i]? = some a) (hb : alerts[j]? = some b)
    (hsurv : a ∈ survivors alerts) (hkey : b.Key = a.VersusKey) :
    b ∈ eliminated alerts ∧ (survivors alerts).Sublist (alerts.eraseIdx j) ∧
      (alerts.Nodup → b ∉ survivors alerts) := by
  have h := later_hit_by_index hij ha hb ((hits_iff a b).mpr (Or.inr hkey)) (Or.inl hsurv)
  exact ⟨h.1, h.2, fun hnd hs => (nodup_parts hnd).2.2 b hs h.1⟩

/-- Witness of C3, the example of the spec: `A1{key k1, counterpart k2}`,
`A2{key k2}` gives survivors `{A1}` and eliminated `{A2}`. -/
theorem counterpart_eliminated_witness :
    eliminationPass [sample "1" "k1" "k2" "Warning" 1, sample "2" "k2" "" "Warning" 2] =
        ([sample "1" "k1" "k2" "Warning" 1], [sample "2" "k2" "" "Warning" 2]) ∧
      sample "2" "k2" "" "Warning" 2 ∈
        eliminated [sample "1" "k1" "k2" "Warning" 1, sample "2" "k2" "" "Warning" 2] :=
  ⟨by decide,
    (counterpart_eliminated
      [sample "1" "k1" "k2" "Warning" 1, sample "2" "k2" "" "Warning" 2]
      0 1 (sample "1" "k1" "k2" "Warning" 1) (sample "2" "k2" "" "Warning" 2)
      (by decide) rfl rfl (by decide) rfl).1⟩

/-- C4, idempotence: the pass run on the survivors of a pass returns the same
survivors in the same order and eliminates nothing. -/
theorem pass_idempotent (alerts : List Alert) :
    eliminationPass (survivors alerts) = (survivors alerts, []) :=
  eliminationPass_of_pairwise _ (survivors_pairwise alerts)

/-- C5, summary correctness: when the query returns `alerts`, the summary has
the requested URL, `Warnings` is the number of survivors of severity exactly
`"Warning"` and `Criticals` the number of survivors of severity exactly
`"Critical"`; nothing else is counted. -/
theorem summary_correct {σ : Type} (conn : Connection σ) (db : σ) (url : String)
    (alerts : List Alert) (hfind : conn.find db url = Except.ok alerts) :
    (CombineAlertsByURL conn db url).summary =
      some { URL := url,
             Warnings := (survivors alerts).countP (fun a => decide (a.Severity = "Warning")),
             Criticals :=
               (survivors alerts).countP (fun a => decide (a.Severity = "Critical")) } := by
  rw [combine_ok conn db url alerts hfind, countLoop_eq]
  simp

/-- Witness of C5, the example of the spec: `A1{k1,"",Warning}`,
`A2{k2,k1,Warning}`, `A3{k3,"",Critical}`: nothing is eliminated and the summary
is 2 warnings, 1 critical. -/
theorem summary_correct_witness :
    eliminationPass [sample "1" "k1" "" "Warning" 1, sample "2" "k2" "k1" "Warning" 2,
          sample "3" "k3" "" "Critical" 3] =
        ([sample "1" "k1" "" "Warning" 1, sample "2" "k2" "k1" "Warning" 2,
          sample "3" "k3" "" "Critical" 3], []) ∧
      (CombineAlertsByURL tableStore
          [sample "1" "k1" "" "Warning" 1, sample "2" "k2" "k1" "Warning" 2,
            sample "3" "k3" "" "Critical" 3] "/t").summary =
        some { URL := "/t", Warnings := 2, Criticals := 1 } :=
  ⟨by decide,
    (summary_correct tableStore
      [sample "1" "k1" "" "Warning" 1, sample "2" "k2" "k1" "Warning" 2,
        sample "3" "k3" "" "Critical" 3] "/t"
      [sample "1" "k1" "" "Warning" 1, sample "2" "k2" "k1" "Warning" 2,
        sample "3" "k3" "" "Critical" 3] rfl).trans (by decide)⟩

/-- C6, purge set equals eliminated set. In a successful call the delete
requests are the eliminated records, one request each and in the order of
`removeFromDB`; the store after the call is the store after these requests; every
occurrence of a loaded record is either requested for deletion or a survivor;
with pairwise distinct records no record is requested twice and no survivor is
requested. On the table store with distinct row IDs, the next query for the
target returns exactly the survivors and the rows of other targets are
unchanged. -/
theorem deletes_are_eliminated :
    (∀ (σ : Type) (conn : Connection σ) (db : σ) (url : String) (alerts : List Alert),
      conn.find db url = Except.ok alerts →
        (CombineAlertsByURL conn db url).deletes = eliminated alerts ∧
        (CombineAlertsByURL conn db url).db =
          (eliminated alerts).foldl (fun s r => (conn.delete s r).1) db ∧
        (∀ a, (CombineAlertsByURL conn db url).deletes.count a +
          (survivors alerts).count a = alerts.count a) ∧
        (alerts.Nodup →
          (CombineAlertsByURL conn db url).deletes.Nodup ∧
            ∀ a ∈ survivors alerts, a ∉ (CombineAlertsByURL conn db url).deletes)) ∧
    (∀ (rows : List Alert) (url : String), (rows.map Alert.ID).Nodup →
      tableStore.find (CombineAlertsByURL tableStore rows url).db url =
          Except.ok (survivors (queryRows rows url)) ∧
        (CombineAlertsByURL tableStore rows url).db.filter
            (fun r => decide (r.URL ≠ url)) =
          rows.filter (fun r => decide (r.URL ≠ url))) := by
  constructor
  · intro σ conn db url alerts hfind
    rw [combine_ok conn db url alerts hfind]
    refine ⟨rfl, rfl, ?_, ?_⟩
    · intro a
      show (eliminated alerts).count a + (survivors alerts).count a = alerts.count a
      rw [Nat.add_comm, ← List.count_append]
      exact (pass_perm alerts).count_eq a
    · intro hnd
      have h := nodup_parts hnd
      exact ⟨h.2.1, h.2.2⟩
  · intro rows url hid
    exact tableStore_after rows url hid

/-- Witness of C6: a table with two targets; the second row of target `/t` is
deleted, the row of target `/u` stays. -/
theorem deletes_are_eliminated_witness :
    ([sample "1" "k1" "" "Warning" 1,
        { sample "9" "k1" "" "Critical" 2 with URL := "/u" },
        sample "2" "k1" "" "Critical" 3].map Alert.ID).Nodup ∧
      (CombineAlertsByURL tableStore
        [sample "1" "k1" "" "Warning" 1,
          { sample "9" "k1" "" "Critical" 2 with URL := "/u" },
          sample "2" "k1" "" "Critical" 3] "/t").deletes =
        eliminated [sample "1" "k1" "" "Warning" 1, sample "2" "k1" "" "Critical" 3] ∧
      (CombineAlertsByURL tableStore
        [sample "1" "k1" "" "Warning" 1,
          { sample "9" "k1" "" "Critical" 2 with URL := "/u" },
          sample "2" "k1" "" "Critical" 3] "/t").db.filter
          (fun r => decide (r.URL ≠ "/t")) =
        [{ sample "9" "k1" "" "Critical" 2 with URL := "/u" }] :=
  ⟨by decide,
    (deletes_are_eliminated.1 (List Alert) tableStore
      [sample "1" "k1" "" "Warning" 1,
        { sample "9" "k1" "" "Critical" 2 with URL := "/u" },
        sample "2" "k1" "" "Critical" 3] "/t"
      [sample "1" "k1" "" "Warning" 1, sample "2" "k1" "" "Critical" 3] rfl).1,
    (deletes_are_eliminated.2
      [sample "1" "k1" "" "Warning" 1,
        { sample "9" "k1" "" "Critical" 2 with URL := "/u" },
        sample "2" "k1" "" "Critical" 3] "/t" (by decide)).2.trans (by decide)⟩

/-- C7, store failure is total failure: when the query fails with `e` the call
returns no summary and exactly `e`, issues no delete request and leaves the
store as it is; when the query succeeds it returns a summary and no error; no
call returns both a summary and an error. -/
theorem query_failure_total {σ : Type} (conn : Connection σ) (db : σ) (url : String) :
    (∀ e, conn.find db url = Except.error e →
      (CombineAlertsByURL conn db url).summary = none ∧
        (CombineAlertsByURL conn db url).err = some e ∧
        (CombineAlertsByURL conn db url).deletes = [] ∧
        (CombineAlertsByURL conn db url).db = db) ∧
    (∀ alerts, conn.find db url = Except.ok alerts →
      (CombineAlertsByURL conn db url).summary ≠ none ∧
        (CombineAlertsByURL conn db url).err = none) ∧
    ¬ ((CombineAlertsByURL conn db url).summary ≠ none ∧
        (CombineAlertsByURL conn db url).err ≠ none) ∧
    ((CombineAlertsByURL conn db url).summary ≠ none ∨
        (CombineAlertsByURL conn db url).err ≠ none) := by
  refine ⟨?_, ?_, ?_, ?_⟩
  · intro e h
    rw [combine_error conn db url e h]
    exact ⟨rfl, rfl, rfl, rfl⟩
  · intro alerts h
    rw [combine_ok conn db url alerts h]
    exact ⟨by simp, rfl⟩
  · cases h : conn.find db url with
    | error e => rw [combine_error conn db url e h]; simp
    | ok alerts => rw [combine_ok conn db url alerts h]; simp
  · cases h : conn.find db url with
    | error e => rw [combine_error conn db url e h]; simp
    | ok alerts => rw [combine_ok conn db url alerts h]; simp

/-- Witness of C7 on a store whose query fails. -/
theorem query_failure_total_witness :
    downStore.find () "/t" = Except.error "connection refused" ∧
      (CombineAlertsByURL downStore () "/t").summary = none ∧
      (CombineAlertsByURL downStore () "/t").err = some "connection refused" ∧
      (CombineAlertsByURL downStore () "/t").deletes = [] :=
  ⟨rfl,
    ((query_failure_total downStore () "/t").1 "connection refused" rfl).1,
    ((query_failure_total downStore () "/t").1 "connection refused" rfl).2.1,
    ((query_failure_total downStore () "/t").1 "connection refused" rfl).2.2.1⟩

/-- C8, deletion failures are swallowed: two calls whose queries return the same
`alerts`, on any two stores with any behaviour of their delete requests,
return no error and the same summary, which is computed from `alerts` alone, and
both issue one delete request for every eliminated record. -/
theorem delete_outcomes_ignored {σ τ : Type} (conn : Connection σ) (conn2 : Connection τ)
    (db : σ) (db2 : τ) (url : String) (alerts : List Alert)
    (h1 : conn.find db url = Except.ok alerts)
    (h2 : conn2.find db2 url = Except.ok alerts) :
    (CombineAlertsByURL conn db url).err = none ∧
      (CombineAlertsByURL conn2 db2 url).err = none ∧
      (CombineAlertsByURL conn db url).summary =
        some (countLoop { URL := url, Warnings := 0, Criticals := 0 } (survivors alerts)) ∧
      (CombineAlertsByURL conn2 db2 url).summary = (CombineAlertsByURL conn db url).summary ∧
      (CombineAlertsByURL conn db url).deletes = eliminated alerts ∧
      (CombineAlertsByURL conn2 db2 url).deletes = eliminated alerts := by
  rw [combine_ok conn db url alerts h1, combine_ok conn2 db2 url alerts h2]
  exact ⟨rfl, rfl, rfl, rfl, rfl, rfl⟩

/-- Witness of C8: the same table behind a store whose deletes succeed and behind
a store whose deletes all fail; two records are eliminated, so the second
request follows a failed one. -/
theorem delete_outcomes_ignored_witness :
    (CombineAlertsByURL readOnlyStore
        [sample "1" "k1" "k2" "Warning" 1, sample "2" "k2" "" "Critical" 2,
          sample "3" "k1" "" "Critical" 3] "/t").err = none ∧
      (CombineAlertsByURL readOnlyStore
        [sample "1" "k1" "k2" "Warning" 1, sample "2" "k2" "" "Critical" 2,
          sample "3" "k1" "" "Critical" 3] "/t").summary =
        some { URL := "/t", Warnings := 1, Criticals := 0 } ∧
      (CombineAlertsByURL readOnlyStore
        [sample "1" "k1" "k2" "Warning" 1, sample "2" "k2" "" "Critical" 2,
          sample "3" "k1" "" "Critical" 3] "/t").deletes =
        [sample "2" "k2" "" "Critical" 2, sample "3" "k1" "" "Critical" 3] :=
  ⟨(delete_outcomes_ignored readOnlyStore tableStore
      [sample "1" "k1" "k2" "Warning" 1, sample "2" "k2" "" "Critical" 2,
        sample "3" "k1" "" "Critical" 3]
      [sample "1" "k1" "k2" "Warning" 1, sample "2" "k2" "" "Critical" 2,
        sample "3" "k1" "" "Critical" 3] "/t"
      [sample "1" "k1" "k2" "Warning" 1, sample "2" "k2" "" "Critical" 2,
        sample "3" "k1" "" "Critical" 3] rfl rfl).1,
    by decide, by decide⟩

/-- C9, forward-only directionality: a record is eliminated exactly when a
survivor at a strictly earlier position has `Key` or `VersusKey` equal to the
`Key` of that record. The first record of a non-empty input survives, and at
every iteration the current element stays at the head of the list while the
loop goes on with what the scan left behind it. -/
theorem eliminated_iff_earlier_survivor :
    (∀ (alerts : List Alert) (b : Alert),
      b ∈ eliminated alerts ↔
        ∃ (i j : Nat) (a : Alert), i < j ∧ alerts[i]? = some a ∧ alerts[j]? = some b ∧
          a ∈ survivors alerts ∧ (b.Key = a.Key ∨ b.Key = a.VersusKey)) ∧
    (∀ (a : Alert) (rest : List Alert), (survivors (a :: rest)).head? = some a) ∧
    (∀ (n : Nat) (a : Alert) (rest : List Alert),
      (outerLoop (n + 1) (a :: rest)).1 = a :: (outerLoop n (scan a rest).2).1) := by
  refine ⟨?_, ?_, ?_⟩
  · intro alerts b
    constructor
    · intro hb
      obtain ⟨a, h1, h2, h3⟩ := eliminated_has_killer alerts b hb
      obtain ⟨i, j, hij, hi, hj⟩ := pair_index_of_sublist h1
      exact ⟨i, j, a, hij, hi, hj, h2, (hits_iff a b).mp h3⟩
    · rintro ⟨i, j, a, hij, hi, hj, hs, hk⟩
      exact (later_hit_by_index hij hi hj ((hits_iff a b).mpr hk) (Or.inl hs)).1
  · intro a rest
    rw [survivors_cons]
    rfl
  · intro n a rest
    rfl

/-- C10, tolerance of partial purges. First part: for pairwise distinct records
`L` (rows of a table with a primary key are), every subsequence of `L` that
keeps all survivors of `L` has the same survivors, so a call that loads it
returns the same summary as a call that loads `L`. Second part, by positions and
for every sequence: flag each record of the sequence as kept or dropped; if
every dropped record has a survivor placed before it whose `Key` or `VersusKey`
is its `Key` (by C9, if it is eliminated), the kept records have the survivors
of the whole sequence. -/
theorem partial_purge_tolerated :
    (∀ (L L2 : List Alert), L.Nodup → L2.Sublist L → (survivors L).Sublist L2 →
      survivors L2 = survivors L ∧
        (∀ n, countLoop n (survivors L2) = countLoop n (survivors L)) ∧
        (∀ (σ τ : Type) (conn : Connection σ) (conn2 : Connection τ) (db : σ) (db2 : τ)
          (url : String),
          conn.find db url = Except.ok L → conn2.find db2 url = Except.ok L2 →
            (CombineAlertsByURL conn2 db2 url).summary =
              (CombineAlertsByURL conn db url).summary)) ∧
    (∀ (T : List (Alert × Bool)),
      (∀ pre b post, T = pre ++ (b, false) :: post →
        ∃ a, a ∈ pre.map Prod.fst ∧ a ∈ survivors (T.map Prod.fst) ∧
          (b.Key = a.Key ∨ b.Key = a.VersusKey)) →
      survivors ((T.filter (fun p => p.2)).map Prod.fst) = survivors (T.map Prod.fst)) := by
  constructor
  · intro L L2 hnd hsub hkeep
    have h := survivors_of_between L hnd L2 hsub hkeep
    refine ⟨h, ?_, ?_⟩
    · intro n; rw [h]
    · intro σ τ conn conn2 db db2 url h1 h2
      rw [combine_ok conn db url L h1, combine_ok conn2 db2 url L2 h2, h]
  · intro T hyp
    apply survivors_of_flagged T.length T (le_refl _)
    intro pre b post hsplit
    obtain ⟨a, h1, h2, h3⟩ := hyp pre b post hsplit
    exact ⟨a, h1, h2, (hits_iff a b).mpr h3⟩

/-- Witness of C10: of two eliminated records one is already gone. -/
theorem partial_purge_tolerated_witness :
    survivors [sample "1" "k1" "k2" "Warning" 1, sample "3" "k1" "" "Critical" 3] =
        survivors [sample "1" "k1" "k2" "Warning" 1, sample "2" "k2" "" "Critical" 2,
          sample "3" "k1" "" "Critical" 3] ∧
      survivors (([(sample "1" "k1" "k2" "Warning" 1, true),
          (sample "2" "k2" "" "Critical" 2, false)].filter (fun p => p.2)).map Prod.fst) =
        survivors ([(sample "1" "k1" "k2" "Warning" 1, true),
          (sample "2" "k2" "" "Critical" 2, false)].map Prod.fst) :=
  ⟨(partial_purge_tolerated.1
      [sample "1" "k1" "k2" "Warning" 1, sample "2" "k2" "" "Critical" 2,
        sample "3" "k1" "" "Critical" 3]
      [sample "1" "k1" "k2" "Warning" 1, sample "3" "k1" "" "Critical" 3]
      (by decide) (by decide) (by decide)).1,
    partial_purge_tolerated.2
      [(sample "1" "k1" "k2" "Warning" 1, true), (sample "2" "k2" "" "Critical" 2, false)]
      (by
        intro pre b post h
        rcases pre with _ | ⟨p, _ | ⟨q, pre⟩⟩
        · simp at h
        · simp at h
          obtain ⟨h1, h2, _⟩ := h
          subst h1 h2
          exact ⟨sample "1" "k1" "k2" "Warning" 1, by simp, by decide, by decide⟩
        · simp at h)⟩

end Repository
